import Mathlib

/-!
Verification of the color-analysis pipeline of `image_colorpalette`.

The Rust sources `src/handle_image.rs` (library) and `src/main.rs`
(near-duplicate demo binary) are shallowly embedded below.  `u8` channel
samples are `Fin 256`, `u32` dimensions and `u64` accumulators are `ℕ`
(no overflow occurs in the ranges involved), and the `f32`/`f64`
arithmetic is modelled exactly over `ℚ`, with the two Rust-specific cast
behaviours that matter (saturation and `NaN → 0`) made explicit where
they arise.  A `HashSet<[u8; 3]>` is modelled as a duplicate-free list:
`insert` is insert-if-absent, and iteration enumerates the distinct
elements in some order — every consumer below is order-insensitive, as
`HashSet` iteration order is unspecified.
-/

namespace ImageColorpalette

/-- An 8-bit RGB color `[u8; 3]`, as a triple of `Fin 256`. -/
abbrev Color : Type := Fin 256 × Fin 256 × Fin 256

/-- A decoded pixel grid (`RgbImage`): explicit dimensions plus the row-major
list of pixel values. -/
structure RgbImage where
  width : ℕ
  height : ℕ
  pixels : List Color
deriving DecidableEq

/-- The `HandleImage` analyzer state: the full-resolution decode, the
downsampled working copy, and the lazily filled color-set cache
(`colors: Option<HashSet<[u8; 3]>>`). -/
structure HandleImage where
  image : RgbImage
  compressed_image : RgbImage
  colors : Option (List Color)
deriving DecidableEq

/-- Rust `HandleImage::get_difference`: absolute difference of two `u8` channel
samples.  The branch subtracts the smaller from the larger, so the `u8`
subtraction never wraps and the result is an ordinary difference in `ℕ`. -/
def get_difference (f s : Fin 256) : ℕ :=
  if f < s then s.val - f.val else f.val - s.val

/-- Rust `HandleImage::smaller`: minimum of two `u32` values. -/
def smaller (x y : ℕ) : ℕ :=
  if x < y then x else y

/-- Rust `HandleImage::calculate`: `(u as f64 * f).round() as u32`.  The `f64`
arithmetic is modelled exactly over `ℚ`; `f64::round` is
round-half-away-from-zero, which on the nonnegative inputs occurring here
is `⌊· + 1/2⌋₊`. -/
def calculate (u : ℕ) (f : ℚ) : ℕ :=
  ⌊(u : ℚ) * f + 1 / 2⌋₊

/-- The resize factor computed by `compressing_image` in
`src/handle_image.rs`: `500.0 / smaller(width, height)`, clamped so that it
never exceeds `1.0`.  When `smaller width height = 0` the Rust `f64`
quotient is `+inf`, which the clamp also sends to `1.0`; since `ℚ` has no
infinity that case is folded into the clamp here. -/
def compressing_scale (width height : ℕ) : ℚ :=
  if smaller width height = 0 then 1
  else if (500 : ℚ) / (smaller width height : ℚ) > 1 then 1
  else (500 : ℚ) / (smaller width height : ℚ)

/-- The target dimensions that the library `compressing_image`
(`src/handle_image.rs`) hands to the external resize collaborator:
`calculate width r` and `calculate height r` for the clamped factor `r`. -/
def compressing_image_dims (width height : ℕ) : ℕ × ℕ :=
  (calculate width (compressing_scale width height),
   calculate height (compressing_scale width height))

/-- The target dimensions computed by the unclamped duplicate
`compressing_image` in `src/main.rs`: `500 as f64 / smaller as f64` with no
clamp.  (For `smaller = 0` the Rust quotient would be `+inf`, outside this
model; the inputs considered below are positive.) -/
def main_compressing_image_dims (width height : ℕ) : ℕ × ℕ :=
  (calculate width ((500 : ℚ) / (smaller width height : ℚ)),
   calculate height ((500 : ℚ) / (smaller width height : ℚ)))

/-- The cache-miss pixel scan of `get_colors` (duplicated, dead, in the
`None` arm of `get_dominant_color`): insert every pixel of the working copy
into a fresh `HashSet` (`List.insert` is insert-if-absent, preserving
duplicate-freedom). -/
def scan_colors (img : RgbImage) : List Color :=
  img.pixels.foldl (fun seen pix => if pix ∈ seen then seen else pix :: seen) []

/-- Rust `HandleImage::get_colors`: return a clone of the cached color set, or on
a cache miss scan the working copy, store the scan in the cache and return
it.  The mutation of `self.colors` is modelled by returning the updated
analyzer alongside the value. -/
def get_colors (a : HandleImage) : List Color × HandleImage :=
  match a.colors with
  | some value => (value, a)
  | none =>
      let seen := scan_colors a.compressed_image
      (seen, { a with colors := some seen })

/-- The channel-summing loop of `get_dominant_color`: fold over the cached
set accumulating the three `u64` channel sums `f`, `s`, `t`.  (No overflow:
each summand is below 256 and a `HashSet<[u8; 3]>` has at most `2 ^ 24`
elements, so the sums stay far below `2 ^ 64`.) -/
def sum_channels (arr : List Color) : ℕ × ℕ × ℕ :=
  arr.foldl
    (fun acc value =>
      (acc.1 + value.1.val, acc.2.1 + value.2.1.val, acc.2.2 + value.2.2.val))
    (0, 0, 0)

/-- One output channel of `get_dominant_color`:
`(sum as f32 / len as f32).round() as u8`.  For `len = 0` the `f32` quotient
is `0.0 / 0.0 = NaN`, `NaN.round()` is `NaN`, and Rust's saturating
float-to-int cast maps `NaN` to `0`.  Otherwise the quotient is modelled
exactly over `ℚ`, `f32::round` is round-half-away-from-zero (here half-up,
both operands nonnegative), and the saturating cast to `u8` caps at 255. -/
def round_div_u8 (sum len : ℕ) : ℕ :=
  if len = 0 then 0 else min 255 ⌊(sum : ℚ) / (len : ℚ) + 1 / 2⌋₊

/-- Rust `HandleImage::get_dominant_color`, its single recursive self-call made
explicit by a fuel parameter (`none` is the out-of-fuel case; claim C10
shows fuel 2 always suffices).  The `Some` arm averages the cached set; the
`None` arm populates the cache via `get_colors` and recurses.  The `seen`
set built and immediately discarded in the Rust `None` arm has no
observable effect and is omitted. -/
def get_dominant_colorF : ℕ → HandleImage → Option ((ℕ × ℕ × ℕ) × HandleImage)
  | 0, _ => none
  | fuel + 1, a =>
    match a.colors with
    | some arr =>
        some ((round_div_u8 (sum_channels arr).1 arr.length,
               round_div_u8 (sum_channels arr).2.1 arr.length,
               round_div_u8 (sum_channels arr).2.2 arr.length), a)
    | none => get_dominant_colorF fuel (get_colors a).2

/-- Client-facing `get_dominant_color` as invoked by callers (fuel 2 covers both cache
states). -/
def get_dominant_color (a : HandleImage) : Option ((ℕ × ℕ × ℕ) × HandleImage) :=
  get_dominant_colorF 2 a

/-- The per-color neutrality flags pushed into `vec` by `check_grayscale`:
one `Bool` per cached color, `true` when all three pairwise channel
differences are strictly below the threshold. -/
def neutral_flags (arr : List Color) (threshold : ℕ) : List Bool :=
  arr.map fun value =>
    if get_difference value.1 value.2.1 < threshold ∧
       get_difference value.2.1 value.2.2 < threshold ∧
       get_difference value.1 value.2.2 < threshold
    then true else false

/-- Rust `HandleImage::check_grayscale` with explicit fuel (see
`get_dominant_colorF`).  The Rust threshold is a `u8`; it is taken as a
natural number here, restricting theorems to `u8`-representable values
where it matters. -/
def check_grayscaleF : ℕ → HandleImage → ℕ → Option (Bool × HandleImage)
  | 0, _, _ => none
  | fuel + 1, a, threshold =>
    match a.colors with
    | some arr => some ((neutral_flags arr threshold).all id, a)
    | none => check_grayscaleF fuel (get_colors a).2 threshold

/-- Client-facing `check_grayscale` as invoked by callers. -/
def check_grayscale (a : HandleImage) (threshold : ℕ) : Option (Bool × HandleImage) :=
  check_grayscaleF 2 a threshold

/-- The list `vec` built by `get_grayscale_threshold`: the three pairwise
channel differences of every cached color, in push order. -/
def diff_list (arr : List Color) : List ℕ :=
  arr.flatMap fun value =>
    [get_difference value.1 value.2.1,
     get_difference value.1 value.2.2,
     get_difference value.2.1 value.2.2]

/-- Rust `HandleImage::get_grayscale_threshold` with explicit fuel.  The `Some`
arm is `vec.iter().max_by_key(...)` followed by the `Some`/`None` match,
i.e. the maximum of `diff_list`, `none` exactly when the list is empty. -/
def get_grayscale_thresholdF : ℕ → HandleImage → Option (Option ℕ × HandleImage)
  | 0, _ => none
  | fuel + 1, a =>
    match a.colors with
    | some arr => some ((diff_list arr).max?, a)
    | none => get_grayscale_thresholdF fuel (get_colors a).2

/-- Client-facing `get_grayscale_threshold` as invoked by callers. -/
def get_grayscale_threshold (a : HandleImage) : Option (Option ℕ × HandleImage) :=
  get_grayscale_thresholdF 2 a

/-- Rust `HandleImage::get_dimensions`: the dimensions of `self.image`, the
full-resolution decode. -/
def get_dimensions (a : HandleImage) : ℕ × ℕ :=
  (a.image.width, a.image.height)

/-- Rust `HandleImage::set` (and `set_from_web`) after the external decode and
resize collaborators have produced the two pixel grids: the analyzer starts
with an unpopulated cache.  `compressed` stands for the collaborator's
output at the target dimensions `compressing_image_dims`. -/
def set (img compressed : RgbImage) : HandleImage :=
  { image := img, compressed_image := compressed, colors := none }

/-- The analyzer states reachable through the public API: the cache is
either still unpopulated or holds exactly the scan of the working copy
(constructors start at `none`; the only write is `get_colors` storing the
scan). -/
def CacheWF (a : HandleImage) : Prop :=
  a.colors = none ∨ a.colors = some (scan_colors a.compressed_image)

instance (a : HandleImage) : Decidable (CacheWF a) :=
  instDecidableOr

/-- Specification-side notion: a color is neutral for a threshold when all
three pairwise channel differences are strictly below it. -/
def Neutral (c : Color) (t : ℕ) : Prop :=
  get_difference c.1 c.2.1 < t ∧ get_difference c.2.1 c.2.2 < t ∧
    get_difference c.1 c.2.2 < t

instance (c : Color) (t : ℕ) : Decidable (Neutral c t) :=
  instDecidableAnd

/-- Specification-side dominant color: per-channel sum over the distinct
color set (each distinct color counted once), divided by the set's
cardinality, rounded to nearest integer (`f32::round` resolves half-way
ties away from zero, i.e. upward here). -/
def spec_dominant (S : Finset Color) : ℕ × ℕ × ℕ :=
  (⌊(∑ c ∈ S, (c.1.val : ℚ)) / (S.card : ℚ) + 1 / 2⌋₊,
   ⌊(∑ c ∈ S, (c.2.1.val : ℚ)) / (S.card : ℚ) + 1 / 2⌋₊,
   ⌊(∑ c ∈ S, (c.2.2.val : ℚ)) / (S.card : ℚ) + 1 / 2⌋₊)

/-! ### Helper lemmas -/

lemma mem_foldl_insert (l s : List Color) (x : Color) :
    x ∈ l.foldl (fun seen pix => if pix ∈ seen then seen else pix :: seen) s ↔
      x ∈ s ∨ x ∈ l := by
  induction l generalizing s with
  | nil => simp
  | cons p l ih =>
      simp only [List.foldl_cons, List.mem_cons]
      by_cases hp : p ∈ s
      · rw [if_pos hp, ih]
        constructor
        · rintro (h | h)
          · exact Or.inl h
          · exact Or.inr (Or.inr h)
        · rintro (h | h | h)
          · exact Or.inl h
          · exact Or.inl (h ▸ hp)
          · exact Or.inr h
      · rw [if_neg hp, ih]
        simp only [List.mem_cons]
        tauto

lemma nodup_foldl_insert (l s : List Color) (hs : s.Nodup) :
    (l.foldl (fun seen pix => if pix ∈ seen then seen else pix :: seen) s).Nodup := by
  induction l generalizing s with
  | nil => exact hs
  | cons p l ih =>
      simp only [List.foldl_cons]
      by_cases hp : p ∈ s
      · rw [if_pos hp]; exact ih _ hs
      · rw [if_neg hp]; exact ih _ (List.nodup_cons.mpr ⟨hp, hs⟩)

lemma scan_colors_mem (img : RgbImage) (x : Color) :
    x ∈ scan_colors img ↔ x ∈ img.pixels := by
  unfold scan_colors
  rw [mem_foldl_insert]
  simp

lemma scan_colors_nodup (img : RgbImage) : (scan_colors img).Nodup :=
  nodup_foldl_insert _ _ List.nodup_nil

lemma get_colors_fst (a : HandleImage) (h : CacheWF a) :
    (get_colors a).1 = scan_colors a.compressed_image := by
  rcases h with h | h <;> · unfold get_colors; rw [h]

lemma get_colors_snd_colors (a : HandleImage) :
    ((get_colors a).2).colors = some (get_colors a).1 := by
  unfold get_colors
  cases h : a.colors <;> simp [h]

lemma get_colors_snd_compressed (a : HandleImage) :
    ((get_colors a).2).compressed_image = a.compressed_image := by
  unfold get_colors
  cases h : a.colors <;> simp [h]

lemma foldl_sum_channels (l : List Color) (a b c : ℕ) :
    l.foldl
        (fun acc value =>
          (acc.1 + value.1.val, acc.2.1 + value.2.1.val, acc.2.2 + value.2.2.val))
        (a, b, c) =
      (a + (l.map fun v => v.1.val).sum,
       b + (l.map fun v => v.2.1.val).sum,
       c + (l.map fun v => v.2.2.val).sum) := by
  induction l generalizing a b c with
  | nil => simp
  | cons p l ih =>
      simp only [List.foldl_cons, ih, List.map_cons, List.sum_cons, Prod.mk.injEq]
      omega

lemma sum_channels_eq (arr : List Color) :
    sum_channels arr =
      ((arr.map fun v => v.1.val).sum,
       (arr.map fun v => v.2.1.val).sum,
       (arr.map fun v => v.2.2.val).sum) := by
  unfold sum_channels
  rw [foldl_sum_channels]
  simp

lemma floor_half_eq (s n : ℕ) (hn : n ≠ 0) :
    ⌊(s : ℚ) / (n : ℚ) + 1 / 2⌋₊ = (2 * s + n) / (2 * n) := by
  have hn' : (n : ℚ) ≠ 0 := Nat.cast_ne_zero.mpr hn
  have h : (s : ℚ) / (n : ℚ) + 1 / 2 = ((2 * s + n : ℕ) : ℚ) / ((2 * n : ℕ) : ℚ) := by
    push_cast
    field_simp
    ring
  rw [h, Nat.floor_div_nat, Nat.floor_natCast]

lemma round_div_u8_eq_floor (sum len : ℕ) (hlen : len ≠ 0) (hsum : sum ≤ 255 * len) :
    round_div_u8 sum len = ⌊(sum : ℚ) / (len : ℚ) + 1 / 2⌋₊ := by
  unfold round_div_u8
  rw [if_neg hlen]
  refine min_eq_right ?_
  have h0 : (0 : ℚ) < (len : ℚ) := by
    exact_mod_cast Nat.pos_of_ne_zero hlen
  have hq : (sum : ℚ) / (len : ℚ) ≤ 255 := by
    rw [div_le_iff₀ h0]
    have : (sum : ℚ) ≤ 255 * (len : ℚ) := by exact_mod_cast hsum
    linarith
  have hfl : ⌊(sum : ℚ) / (len : ℚ) + 1 / 2⌋₊ < 256 := by
    rw [Nat.floor_lt (by positivity)]
    linarith
  omega

lemma neutral_flags_all_iff (arr : List Color) (t : ℕ) :
    ((neutral_flags arr t).all id = true) ↔ ∀ c ∈ arr, Neutral c t := by
  simp [neutral_flags, List.all_eq_true, Neutral]

lemma round_div_u8_eq_nat (sum len : ℕ) :
    round_div_u8 sum len =
      if len = 0 then 0 else min 255 ((2 * sum + len) / (2 * len)) := by
  unfold round_div_u8
  by_cases h : len = 0
  · simp [h]
  · rw [if_neg h, if_neg h, floor_half_eq sum len h]

lemma get_dominant_color_run (a : HandleImage) (h : CacheWF a) :
    get_dominant_color a =
      some ((round_div_u8 (sum_channels (get_colors a).1).1 (get_colors a).1.length,
             round_div_u8 (sum_channels (get_colors a).1).2.1 (get_colors a).1.length,
             round_div_u8 (sum_channels (get_colors a).1).2.2 (get_colors a).1.length),
            (get_colors a).2) := by
  rcases h with h | h <;>
    simp [get_dominant_color, get_dominant_colorF, get_colors, h]

lemma check_grayscale_run (a : HandleImage) (t : ℕ) (h : CacheWF a) :
    check_grayscale a t =
      some ((neutral_flags (get_colors a).1 t).all id, (get_colors a).2) := by
  rcases h with h | h <;>
    simp [check_grayscale, check_grayscaleF, get_colors, h]

lemma get_grayscale_threshold_run (a : HandleImage) (h : CacheWF a) :
    get_grayscale_threshold a =
      some ((diff_list (get_colors a).1).max?, (get_colors a).2) := by
  rcases h with h | h <;>
    simp [get_grayscale_threshold, get_grayscale_thresholdF, get_colors, h]

lemma get_colors_of_some (b : HandleImage) (l : List Color) (hb : b.colors = some l) :
    get_colors b = (l, b) := by
  unfold get_colors
  rw [hb]

lemma check_grayscaleF_of_some (b : HandleImage) (l : List Color)
    (hb : b.colors = some l) (t : ℕ) :
    check_grayscaleF 2 b t = some ((neutral_flags l t).all id, b) := by
  simp [check_grayscaleF, hb]

lemma get_dominant_colorF_of_some (b : HandleImage) (l : List Color)
    (hb : b.colors = some l) :
    get_dominant_colorF 2 b =
      some ((round_div_u8 (sum_channels l).1 l.length,
             round_div_u8 (sum_channels l).2.1 l.length,
             round_div_u8 (sum_channels l).2.2 l.length), b) := by
  simp [get_dominant_colorF, hb]

lemma get_grayscale_thresholdF_of_some (b : HandleImage) (l : List Color)
    (hb : b.colors = some l) :
    get_grayscale_thresholdF 2 b = some ((diff_list l).max?, b) := by
  simp [get_grayscale_thresholdF, hb]

lemma diff_list_eq_nil_iff (arr : List Color) : diff_list arr = [] ↔ arr = [] := by
  cases arr <;> simp [diff_list]

lemma mem_diff_list (arr : List Color) (m : ℕ) :
    m ∈ diff_list arr ↔
      ∃ c ∈ arr, m = get_difference c.1 c.2.1 ∨ m = get_difference c.1 c.2.2 ∨
        m = get_difference c.2.1 c.2.2 := by
  simp [diff_list, List.mem_flatMap, eq_comm]

lemma calculate_le_self (u : ℕ) (f : ℚ) (h0 : 0 ≤ f) (h1 : f ≤ 1) :
    calculate u f ≤ u := by
  unfold calculate
  have hu : (u : ℚ) * f ≤ (u : ℚ) :=
    mul_le_of_le_one_right (Nat.cast_nonneg u) h1
  have hlt : (u : ℚ) * f + 1 / 2 < ((u + 1 : ℕ) : ℚ) := by
    push_cast
    linarith
  have := (Nat.floor_lt (by positivity)).mpr hlt
  omega

lemma compressing_scale_nonneg (width height : ℕ) :
    0 ≤ compressing_scale width height := by
  unfold compressing_scale
  split
  · norm_num
  · split
    · norm_num
    · positivity

lemma compressing_scale_le_one (width height : ℕ) :
    compressing_scale width height ≤ 1 := by
  unfold compressing_scale
  split
  · norm_num
  · split
    · norm_num
    · linarith [not_lt.mp (by assumption : ¬ (500 : ℚ) / (smaller width height : ℚ) > 1)]

lemma sum_map_le_mul_length (l : List Color) (f : Color → ℕ) (hf : ∀ v, f v ≤ 255) :
    (l.map f).sum ≤ 255 * l.length := by
  induction l with
  | nil => simp
  | cons p l ih =>
      simp only [List.map_cons, List.sum_cons, List.length_cons]
      have := hf p
      omega

lemma round_channel_eq (l : List Color) (f : Color → ℕ) (hf : ∀ v, f v ≤ 255)
    (hl : l.Nodup) (hne : l ≠ []) :
    round_div_u8 (l.map f).sum l.length =
      ⌊(∑ c ∈ l.toFinset, ((f c : ℕ) : ℚ)) / (l.toFinset.card : ℚ) + 1 / 2⌋₊ := by
  have hlen : l.length ≠ 0 := by
    simpa [List.length_eq_zero] using hne
  rw [round_div_u8_eq_floor _ _ hlen (sum_map_le_mul_length l f hf)]
  have hsum : (∑ c ∈ l.toFinset, ((f c : ℕ) : ℚ)) = (((l.map f).sum : ℕ) : ℚ) := by
    rw [← Nat.cast_sum, List.sum_toFinset _ hl]
  have hcard : l.toFinset.card = l.length := List.toFinset_card_of_nodup hl
  rw [hsum, hcard]

/-! ### Concrete analyzers used as witnesses -/

/-- A two-color grid realizing the spec example `{(0,0,0), (10,20,30)}`. -/
def exGrid : RgbImage := ⟨2, 1, [(0, 0, 0), (10, 20, 30)]⟩

/-- A fresh analyzer over `exGrid`. -/
def exAnalyzer : HandleImage := set exGrid exGrid

/-- The spec's boundary example `{(100,100,100), (50,51,50)}`. -/
def grayGrid : RgbImage := ⟨2, 1, [(100, 100, 100), (50, 51, 50)]⟩

/-- A fresh analyzer over `grayGrid`. -/
def grayAnalyzer : HandleImage := set grayGrid grayGrid

/-- A grid with a duplicated pixel value. -/
def dupGrid : RgbImage := ⟨3, 1, [(1, 2, 3), (4, 5, 6), (1, 2, 3)]⟩

/-- A fresh analyzer over `dupGrid`. -/
def dupAnalyzer : HandleImage := set dupGrid dupGrid

/-- A fresh analyzer over a zero-area grid. -/
def emptyAnalyzer : HandleImage := set ⟨0, 0, []⟩ ⟨0, 0, []⟩

lemma spec_dominant_eq_nat (S : Finset Color) (hS : S.card ≠ 0) :
    spec_dominant S =
      ((2 * (∑ c ∈ S, c.1.val) + S.card) / (2 * S.card),
       (2 * (∑ c ∈ S, c.2.1.val) + S.card) / (2 * S.card),
       (2 * (∑ c ∈ S, c.2.2.val) + S.card) / (2 * S.card)) := by
  unfold spec_dominant
  have h1 : ∀ g : Color → ℕ,
      (∑ c ∈ S, ((g c : ℕ) : ℚ)) = ((∑ c ∈ S, g c : ℕ) : ℚ) := by
    intro g
    push_cast
    rfl
  rw [h1 fun c => c.1.val, h1 fun c => c.2.1.val, h1 fun c => c.2.2.val,
    floor_half_eq _ _ hS, floor_half_eq _ _ hS, floor_half_eq _ _ hS]

/-! ### The claims -/

/-- C1: the claim fails on the code as written.  On an analyzer whose working
copy has zero area (so the color set is empty), `get_dominant_color` performs
the `f32` division `0.0 / 0.0`; the resulting `NaN` is collapsed to `0` by
Rust's saturating `u8` cast, so the operation returns the ordinary color
value `(0, 0, 0)` and signals no `EmptyInputError`. -/
theorem get_dominant_color_empty_returns_color :
    (get_dominant_color emptyAnalyzer).map Prod.fst = some (0, 0, 0) := by
  decide

/-- C2: `check_grayscale t` returns `true` exactly when every distinct color
of the color set is neutral, i.e. has all three pairwise channel differences
strictly below `t`; a difference equal to `t` fails the strict comparison,
and a single non-neutral color makes the result `false`. -/
theorem check_grayscale_true_iff_all_neutral (a : HandleImage) (t : ℕ)
    (h : CacheWF a) :
    ((check_grayscale a t).map Prod.fst = some true) ↔
      ∀ c ∈ (get_colors a).1, Neutral c t := by
  rw [check_grayscale_run a t h]
  simpa using neutral_flags_all_iff (get_colors a).1 t

/-- C2 witness: on the boundary example `{(100,100,100), (50,51,50)}` with
threshold 1, the difference `|51 - 50| = 1` is not strictly below 1, so the
classification is `false`. -/
theorem check_grayscale_true_iff_all_neutral_witness :
    CacheWF grayAnalyzer ∧
      ¬ ((check_grayscale grayAnalyzer 1).map Prod.fst = some true) :=
  ⟨Or.inl rfl, fun hcg =>
    absurd
      (((check_grayscale_true_iff_all_neutral grayAnalyzer 1 (Or.inl rfl)).mp hcg)
        (50, 51, 50) (by decide))
      (by decide)⟩

/-- C3: on a non-empty color set, `get_dominant_color` is the per-channel
arithmetic mean over the distinct colors of the set — each distinct color
counted once, each channel sum divided by the set's cardinality and rounded
to nearest — as captured by `spec_dominant` over the deduplicated set. -/
theorem get_dominant_color_is_unweighted_mean (a : HandleImage) (h : CacheWF a)
    (hne : (get_colors a).1 ≠ []) :
    (get_dominant_color a).map Prod.fst =
      some (spec_dominant (get_colors a).1.toFinset) := by
  have hnd : (get_colors a).1.Nodup := by
    rw [get_colors_fst a h]
    exact scan_colors_nodup _
  have hbound : ∀ g : Color → Fin 256, ∀ v : Color, (g v).val ≤ 255 := by
    intro g v
    exact Nat.lt_succ_iff.mp (g v).isLt
  rw [get_dominant_color_run a h]
  simp only [Option.map_some']
  congr 1
  rw [sum_channels_eq]
  unfold spec_dominant
  refine Prod.ext ?_ (Prod.ext ?_ ?_)
  · exact round_channel_eq _ (fun v => v.1.val) (hbound fun v => v.1) hnd hne
  · exact round_channel_eq _ (fun v => v.2.1.val) (hbound fun v => v.2.1) hnd hne
  · exact round_channel_eq _ (fun v => v.2.2.val) (hbound fun v => v.2.2) hnd hne

/-- C3 witness: on the two-color set `{(0,0,0), (10,20,30)}` the dominant
color is `(5, 10, 15)`. -/
theorem get_dominant_color_is_unweighted_mean_witness :
    CacheWF exAnalyzer ∧ (get_colors exAnalyzer).1 ≠ [] ∧
      (get_dominant_color exAnalyzer).map Prod.fst = some (5, 10, 15) := by
  refine ⟨Or.inl rfl, by decide, ?_⟩
  rw [get_dominant_color_is_unweighted_mean exAnalyzer (Or.inl rfl) (by decide),
    spec_dominant_eq_nat _ (by decide)]
  decide

/-- C4 counterexample: the claim quantifies over "downsampling" including the
duplicate in `src/main.rs`, whose factor `500 / min(W,H)` is not clamped:
at the positive dimensions 100×100 it targets 500×500, increasing both
dimensions beyond the original. -/
theorem main_compressing_image_upscales :
    main_compressing_image_dims 100 100 = (500, 500) ∧ 100 < 500 := by
  refine ⟨?_, by norm_num⟩
  have hsm : smaller 100 100 = 100 := by decide
  have key : calculate 100 ((500 : ℚ) / ((100 : ℕ) : ℚ)) = 500 := by
    unfold calculate
    have h : ((100 : ℕ) : ℚ) * ((500 : ℚ) / ((100 : ℕ) : ℚ)) + 1 / 2
        = ((500 : ℕ) : ℚ) / ((1 : ℕ) : ℚ) + 1 / 2 := by
      push_cast
      norm_num
    rw [h, floor_half_eq 500 1 one_ne_zero]
  unfold main_compressing_image_dims
  rw [hsm, key]

/-- C4 (amended): the library `compressing_image` in `src/handle_image.rs`
computes the factor `500 / min(W,H)` clamped to at most 1, targets the
per-axis rounded products with that factor, and never increases either
dimension beyond the original; the unclamped duplicate in `src/main.rs`
omits the clamp and can upscale whenever `min(W,H) < 500`. -/
theorem compressing_image_never_upscales (W H : ℕ) (hW : 0 < W) (hH : 0 < H) :
    compressing_scale W H = min ((500 : ℚ) / (smaller W H : ℚ)) 1 ∧
      compressing_image_dims W H =
        (calculate W (compressing_scale W H), calculate H (compressing_scale W H)) ∧
      (compressing_image_dims W H).1 ≤ W ∧ (compressing_image_dims W H).2 ≤ H := by
  have hm : smaller W H ≠ 0 := by
    unfold smaller
    split <;> omega
  refine ⟨?_, rfl, ?_, ?_⟩
  · unfold compressing_scale
    rw [if_neg hm]
    by_cases h5 : (500 : ℚ) / (smaller W H : ℚ) > 1
    · rw [if_pos h5, min_eq_right (le_of_lt h5)]
    · rw [if_neg h5, min_eq_left (not_lt.mp h5)]
  · exact calculate_le_self W _ (compressing_scale_nonneg W H)
      (compressing_scale_le_one W H)
  · exact calculate_le_self H _ (compressing_scale_nonneg W H)
      (compressing_scale_le_one W H)

/-- C4 witness: a 1000×1000 grid is downsampled by the library version to
target dimensions no larger than the original. -/
theorem compressing_image_never_upscales_witness :
    0 < 1000 ∧ (compressing_image_dims 1000 1000).1 ≤ 1000 ∧
      (compressing_image_dims 1000 1000).2 ≤ 1000 :=
  ⟨by decide,
   (compressing_image_never_upscales 1000 1000 (by decide) (by decide)).2.2.1,
   (compressing_image_never_upscales 1000 1000 (by decide) (by decide)).2.2.2⟩

/-- C5: `get_colors` returns exactly the distinct pixel values of the
downsampled working copy: a color is a member precisely when some pixel has
that exact value (no quantization), and the returned collection is
duplicate-free, so duplicates across pixels count once. -/
theorem get_colors_exact_distinct (a : HandleImage) (h : CacheWF a) :
    (∀ c : Color, c ∈ (get_colors a).1 ↔ c ∈ a.compressed_image.pixels) ∧
      (get_colors a).1.Nodup := by
  rw [get_colors_fst a h]
  exact ⟨fun c => scan_colors_mem _ c, scan_colors_nodup _⟩

/-- C5 witness: on a working copy with a duplicated pixel, the duplicated
value is a member and the returned collection is duplicate-free. -/
theorem get_colors_exact_distinct_witness :
    CacheWF dupAnalyzer ∧
      (((1, 2, 3) : Color) ∈ (get_colors dupAnalyzer).1 ↔
        ((1, 2, 3) : Color) ∈ dupAnalyzer.compressed_image.pixels) ∧
      (get_colors dupAnalyzer).1.Nodup :=
  ⟨Or.inl rfl, (get_colors_exact_distinct dupAnalyzer (Or.inl rfl)).1 (1, 2, 3),
   (get_colors_exact_distinct dupAnalyzer (Or.inl rfl)).2⟩

/-- C6: `get_grayscale_threshold` yields `none` exactly when the color set is
empty; otherwise it yields some `m` that is attained as a pairwise channel
difference of a distinct color and dominates all three pairwise channel
differences of every distinct color — the maximum over the whole set. -/
theorem get_grayscale_threshold_is_max (a : HandleImage) (h : CacheWF a) :
    ∃ r, (get_grayscale_threshold a).map Prod.fst = some r ∧
      (r = none ↔ (get_colors a).1 = []) ∧
      ∀ m, r = some m →
        (∃ c ∈ (get_colors a).1,
            m = get_difference c.1 c.2.1 ∨ m = get_difference c.1 c.2.2 ∨
              m = get_difference c.2.1 c.2.2) ∧
          ∀ c ∈ (get_colors a).1,
            get_difference c.1 c.2.1 ≤ m ∧ get_difference c.1 c.2.2 ≤ m ∧
              get_difference c.2.1 c.2.2 ≤ m := by
  rw [get_grayscale_threshold_run a h]
  refine ⟨(diff_list (get_colors a).1).max?, by simp, ?_, ?_⟩
  · rw [List.max?_eq_none_iff, diff_list_eq_nil_iff]
  · intro m hm
    obtain ⟨hmem, hub⟩ :=
      (List.max?_eq_some_iff (fun a => le_refl a) (fun a b => max_choice a b)
        (fun a b c => max_le_iff)).mp hm
    refine ⟨(mem_diff_list _ m).mp hmem, fun c hc => ?_⟩
    refine ⟨hub _ ?_, hub _ ?_, hub _ ?_⟩
    · exact (mem_diff_list _ _).mpr ⟨c, hc, Or.inl rfl⟩
    · exact (mem_diff_list _ _).mpr ⟨c, hc, Or.inr (Or.inl rfl)⟩
    · exact (mem_diff_list _ _).mpr ⟨c, hc, Or.inr (Or.inr rfl)⟩

/-- C6 witness: instantiation at the two-color analyzer. -/
theorem get_grayscale_threshold_is_max_witness :
    ∃ r, (get_grayscale_threshold exAnalyzer).map Prod.fst = some r ∧
      (r = none ↔ (get_colors exAnalyzer).1 = []) ∧
      ∀ m, r = some m →
        (∃ c ∈ (get_colors exAnalyzer).1,
            m = get_difference c.1 c.2.1 ∨ m = get_difference c.1 c.2.2 ∨
              m = get_difference c.2.1 c.2.2) ∧
          ∀ c ∈ (get_colors exAnalyzer).1,
            get_difference c.1 c.2.1 ≤ m ∧ get_difference c.1 c.2.2 ≤ m ∧
              get_difference c.2.1 c.2.2 ≤ m :=
  get_grayscale_threshold_is_max exAnalyzer (Or.inl rfl)

/-- C7: once populated, the color-set cache is never recomputed or
invalidated: the state after the first `get_colors` stores exactly the
returned set, a second `get_colors` returns that same set with the state
unchanged (taking the clone-the-cache arm, not the pixel-scan arm), and the
three statistics leave the populated state untouched. -/
theorem color_cache_never_invalidated (a : HandleImage) :
    ((get_colors a).2.colors = some (get_colors a).1) ∧
      get_colors (get_colors a).2 = ((get_colors a).1, (get_colors a).2) ∧
      (∀ t, (check_grayscale (get_colors a).2 t).map Prod.snd =
        some (get_colors a).2) ∧
      ((get_dominant_color (get_colors a).2).map Prod.snd =
        some (get_colors a).2) ∧
      ((get_grayscale_threshold (get_colors a).2).map Prod.snd =
        some (get_colors a).2) := by
  have hc := get_colors_snd_colors a
  refine ⟨hc, ?_, fun t => ?_, ?_, ?_⟩
  · rw [get_colors_of_some _ _ hc]
  · simp only [check_grayscale]
    rw [check_grayscaleF_of_some _ _ hc]
    rfl
  · simp only [get_dominant_color]
    rw [get_dominant_colorF_of_some _ _ hc]
    rfl
  · simp only [get_grayscale_threshold]
    rw [get_grayscale_thresholdF_of_some _ _ hc]
    rfl

/-- C8: `get_dimensions` reports the full-resolution original's width and
height, whatever grid the working copy is, and still does so after the
cache-filling call. -/
theorem get_dimensions_original (img compressed : RgbImage) :
    get_dimensions (set img compressed) = (img.width, img.height) ∧
      get_dimensions ((get_colors (set img compressed)).2) =
        (img.width, img.height) :=
  ⟨rfl, rfl⟩

/-- C9: with threshold 0 the strict comparison classifies no color as
neutral (a `u8` difference is never below 0), while the conjunction over an
empty set is vacuously true, so `check_grayscale 0` is `true` exactly when
the color set is empty. -/
theorem check_grayscale_zero_iff_empty (a : HandleImage) (h : CacheWF a) :
    ((check_grayscale a 0).map Prod.fst = some true) ↔ (get_colors a).1 = [] := by
  rw [check_grayscale_run a 0 h]
  simp only [Option.map_some', Option.some.injEq, neutral_flags_all_iff]
  constructor
  · intro hall
    by_contra hne
    obtain ⟨c, hc⟩ := List.exists_mem_of_ne_nil _ hne
    exact absurd (hall c hc).1 (Nat.not_lt_zero _)
  · intro hnil
    rw [hnil]
    intro c hc
    exact absurd hc (List.not_mem_nil c)

/-- C9 witness: the zero-area analyzer has an empty color set and is
classified grayscale at threshold 0. -/
theorem check_grayscale_zero_iff_empty_witness :
    CacheWF emptyAnalyzer ∧
      (check_grayscale emptyAnalyzer 0).map Prod.fst = some true :=
  ⟨Or.inl rfl,
   (check_grayscale_zero_iff_empty emptyAnalyzer (Or.inl rfl)).mpr (by decide)⟩

/-- C10: the cache-miss arms terminate with recursion depth at most two:
fuel 2 never reaches the out-of-fuel case for any cache state, because
`get_colors` populates the cache before the single recursive self-call, which
therefore takes the `Some` arm. -/
theorem cache_miss_recursion_depth_two (a : HandleImage) (t : ℕ) :
    (get_dominant_colorF 2 a).isSome = true ∧
      (check_grayscaleF 2 a t).isSome = true ∧
      (get_grayscale_thresholdF 2 a).isSome = true := by
  rcases hc : a.colors with _ | arr <;>
    simp [get_dominant_colorF, check_grayscaleF, get_grayscale_thresholdF,
      get_colors, hc]

end ImageColorpalette
